import Mathlib

/-!
A shallow embedding of the indexing and query engine of `TdlpackIO.py`
(class `open`), together with theorems settling the frozen claims about it.

Modelling conventions:
* A file is a byte stream `List Nat` (each byte `< 256` for real files) with a
  cursor, mirroring Python's buffered reader: `read n` returns up to `n` bytes
  and advances the cursor by the number of bytes actually returned; seeking
  beyond the end of file is allowed.
* Words are read big-endian and signed, as `struct.unpack('>i', …)` and
  `np.frombuffer(…, dtype='>i4')` do; they are modelled as `Int` with the
  two's-complement wrap made explicit.
* Python exceptions are modelled with `Except`: `struct.error` is the only
  exception caught by the indexing loop (its handler seeks to byte 0 and
  breaks); every other exception propagates out of index construction, so a
  partially mutated index is unobservable and mutation is modelled atomically.
* The `'PLDT'` tag comparison in the source extracts `temp[2]` from a
  big-endian array — which yields a native-order (little-endian) scalar — and
  unpacks its raw buffer as 4 characters.  On the little-endian hosts the code
  is written for, the compared text is therefore the *reversed* bytes of the
  big-endian word; the comparison with `'PLDT'` succeeds exactly when the
  on-disk bytes of word 2 are `'TDLP'` (the same convention appears in
  `pytdlpack.py`, which byteswaps before comparing with `'TDLP'`).  The
  intermediate `.decode()` raises `UnicodeDecodeError` on invalid UTF-8.
* Record objects built by the external decoder collaborator
  (`pytdlpack.TdlpackRecord` and friends) are modelled as a structure holding
  exactly the keyword arguments the source hands over; payload decoding itself
  is out of scope per the specification.
-/

namespace Tdlpack

/-- Decidable equality on `Except`, needed to settle concrete runs of the
embedded operations by `decide`. -/
instance {e a : Type} [DecidableEq e] [DecidableEq a] : DecidableEq (Except e a) := fun x y =>
  match x, y with
  | .ok v, .ok w => if h : v = w then isTrue (by rw [h]) else isFalse (by simp [h])
  | .error v, .error w => if h : v = w then isTrue (by rw [h]) else isFalse (by simp [h])
  | .ok _, .error _ => isFalse (by simp)
  | .error _, .ok _ => isFalse (by simp)

/-- Python exception kinds that can escape the operations under study. -/
inductive PyError where
  /-- `struct.error` from `struct.unpack` on a too-short buffer. -/
  | structError
  /-- out-of-bounds element access on a numpy array or Python list. -/
  | indexError
  /-- `np.frombuffer` on a buffer that is not a multiple of 4 bytes, or a
  negative read count other than -1. -/
  | valueError
  /-- the explicit `raise IOError('Bad Fortran record.')`. -/
  | badFortranRecord
  /-- Python 3 `TypeError` (ordering `None` against an integer). -/
  | typeError
  /-- unbound local variable (`reclist`, `idx1` …). -/
  | nameError
  /-- `bytes.decode()` failure on invalid UTF-8. -/
  | unicodeDecodeError
  deriving DecidableEq, Repr

/-- A binary file opened for reading: contents plus cursor. -/
structure PyFile where
  data : List Nat
  pos : Nat
  deriving DecidableEq, Repr

/-- `fh.read(n)` for `n ≥ 0`: returns up to `n` bytes from the cursor and
advances the cursor by the number of bytes returned. -/
def PyFile.read (f : PyFile) (n : Nat) : List Nat × PyFile :=
  let r := (f.data.drop f.pos).take n
  (r, ⟨f.data, f.pos + r.length⟩)

/-- `fh.read(n)` for an arbitrary (possibly negative) count: `-1` reads to the
end of file, other negative counts raise `ValueError`. -/
def PyFile.readCount (f : PyFile) (n : Int) : Except PyError (List Nat × PyFile) :=
  if 0 ≤ n then .ok (f.read n.toNat)
  else if n = -1 then .ok (f.read f.data.length)
  else .error .valueError

/-- `fh.seek(off, 1)`: relative seek (the scan only ever seeks forward). -/
def PyFile.seekRel (f : PyFile) (off : Int) : PyFile :=
  ⟨f.data, ((f.pos : Int) + off).toNat⟩

/-- `fh.seek(o)`: absolute seek. -/
def PyFile.seekAbs (f : PyFile) (o : Nat) : PyFile :=
  ⟨f.data, o⟩

/-- Signed big-endian 32-bit value of four bytes. -/
def sbe32 (b0 b1 b2 b3 : Nat) : Int :=
  let u := b0 * 16777216 + b1 * 65536 + b2 * 256 + b3
  if u < 2147483648 then (u : Int) else (u : Int) - 4294967296

/-- `struct.unpack('>i', buf)[0]`: requires exactly 4 bytes, else
`struct.error`. -/
def unpackBE : List Nat → Except PyError Int
  | [b0, b1, b2, b3] => .ok (sbe32 b0 b1 b2 b3)
  | _ => .error .structError

/-- `np.frombuffer(buf, dtype='>i4')` as a word list; group the bytes in
fours, big-endian signed. -/
def beWords : List Nat → List Int
  | b0 :: b1 :: b2 :: b3 :: rest => sbe32 b0 b1 b2 b3 :: beWords rest
  | _ => []

/-- `np.frombuffer` raises `ValueError` when the buffer size is not a
multiple of the element size. -/
def frombuffer (b : List Nat) : Except PyError (List Int) :=
  if b.length % 4 = 0 then .ok (beWords b) else .error .valueError

/-- Element access on a numpy array or Python list: `IndexError` when out of
bounds. -/
def pyGet {α : Type} (l : List α) (k : Nat) : Except PyError α :=
  match l[k]? with
  | some v => .ok v
  | none => .error .indexError

/-- The native (little-endian) byte buffer of an `int32` scalar whose signed
value is `v`. -/
def i32leBytes (v : Int) : List Nat :=
  let u := (v % 4294967296).toNat
  [u % 256, u / 256 % 256, u / 65536 % 256, u / 16777216]

/-- One continuation byte of a UTF-8 sequence. -/
def utf8Cont (b : Nat) : Bool := 128 ≤ b && b ≤ 191

/-- Validity of a byte string under Python's strict UTF-8 decoder (rejecting
overlong forms, surrogates and values above U+10FFFF). -/
def utf8Valid : List Nat → Bool
  | [] => true
  | b :: rest =>
    if b ≤ 127 then utf8Valid rest
    else if 194 ≤ b && b ≤ 223 then
      match rest with
      | c1 :: r => utf8Cont c1 && utf8Valid r
      | [] => false
    else if b = 224 then
      match rest with
      | c1 :: c2 :: r => (160 ≤ c1 && c1 ≤ 191) && utf8Cont c2 && utf8Valid r
      | _ => false
    else if (225 ≤ b && b ≤ 236) || b = 238 || b = 239 then
      match rest with
      | c1 :: c2 :: r => utf8Cont c1 && utf8Cont c2 && utf8Valid r
      | _ => false
    else if b = 237 then
      match rest with
      | c1 :: c2 :: r => (128 ≤ c1 && c1 ≤ 159) && utf8Cont c2 && utf8Valid r
      | _ => false
    else if b = 240 then
      match rest with
      | c1 :: c2 :: c3 :: r => (144 ≤ c1 && c1 ≤ 191) && utf8Cont c2 && utf8Cont c3 && utf8Valid r
      | _ => false
    else if 241 ≤ b && b ≤ 243 then
      match rest with
      | c1 :: c2 :: c3 :: r => utf8Cont c1 && utf8Cont c2 && utf8Cont c3 && utf8Valid r
      | _ => false
    else if b = 244 then
      match rest with
      | c1 :: c2 :: c3 :: r => (128 ≤ c1 && c1 ≤ 143) && utf8Cont c2 && utf8Cont c3 && utf8Valid r
      | _ => false
    else false

/-- The bytes of the string `'PLDT'`. -/
def pldtBytes : List Nat := [80, 76, 68, 84]

/-- The `_header` computation of line 115: take the native buffer of the word
scalar `temp[2]`, decode it, and (in the caller) compare with `'PLDT'`.
Decoding raises `UnicodeDecodeError` on invalid UTF-8; since UTF-8 encoding
is injective, string equality with `'PLDT'` is byte equality. -/
def headerIsPLDT (w2 : Int) : Except PyError Bool :=
  let b := i32leBytes w2
  if utf8Valid b then .ok (decide (b = pldtBytes)) else .error .unicodeDecodeError

/-- `int(str(n)[-3:])`: the low 3 decimal digits, with Python's exact
behaviour on negative inputs (the sign character is part of the sliced text
when fewer than 3 digits follow it). -/
def pyLast3 (n : Int) : Int :=
  if 0 ≤ n then n % 1000
  else if 100 ≤ n.natAbs then ((n.natAbs % 1000 : Nat) : Int)
  else n

/-- `ndarray.byteswap()` on one `int32` element. -/
def byteswap32 (v : Int) : Int :=
  let u := (v % 4294967296).toNat
  sbe32 (u % 256) (u / 256 % 256) (u / 65536 % 256) (u / 16777216)

/-- The three record kinds stored in `self._index['type']`. -/
inductive RecKind where
  | data
  | station
  | trailer
  deriving DecidableEq, Repr

/-- The fields one classified frame contributes to the index (lines
119-152), minus `offset` and `linked_station_id_record`. -/
structure Classified where
  size : Int
  kind : RecKind
  date : Option Int
  lead : Option Int
  id1 : Option Int
  id2 : Option Int
  id3 : Option Int
  id4 : Option Int
  deriving DecidableEq, Repr

/-- Classification of one frame from its header window (lines 114-152).
`window` is the byte string returned by `self._fh.read(bytes_to_read)`.
Index-list mutations are modelled atomically because every failure raised
here escapes `_get_index` and makes the handle unusable. -/
def classifyWindow (window : List Nat) : Except PyError Classified := do
  let temp ← frombuffer window
  let w2 ← pyGet temp 2
  let isData ← headerIsPLDT w2
  if isData then
    let size ← pyGet temp 1
    let date ← pyGet temp 6
    let w9lead ← pyGet temp 9
    let i1 ← pyGet temp 7
    let i2 ← pyGet temp 8
    let i3 ← pyGet temp 9
    let i4 ← pyGet temp 10
    .ok ⟨size, .data, some date, some (pyLast3 w9lead), some i1, some i2, some i3, some i4⟩
  else
    let size ← pyGet temp 1
    if size = 24 then
      let w6 ← pyGet temp 6
      if w6 = 9999 then
        .ok ⟨size, .trailer, none, none, none, none, none, none⟩
      else
        .ok ⟨size, .station, none, none, some 400001000, some 0, some 0, some 0⟩
    else
      .ok ⟨size, .station, none, none, some 400001000, some 0, some 0, some 0⟩

/-- The parallel lists of `self._index`. -/
structure FileIndex where
  offset : List Nat
  size : List Int
  type : List RecKind
  date : List (Option Int)
  lead : List (Option Int)
  id1 : List (Option Int)
  id2 : List (Option Int)
  id3 : List (Option Int)
  id4 : List (Option Int)
  linked : List Nat
  deriving DecidableEq, Repr

/-- The freshly initialised index of lines 90-99. -/
def emptyIndex : FileIndex := ⟨[], [], [], [], [], [], [], [], [], []⟩

/-- Append one classified entry to every list except `offset` (lines
119-152; `linked` is `linked_station_id_record`). -/
def FileIndex.append1 (idx : FileIndex) (c : Classified) (linked : Nat) : FileIndex :=
  { idx with
    size := idx.size ++ [c.size]
    type := idx.type ++ [c.kind]
    date := idx.date ++ [c.date]
    lead := idx.lead ++ [c.lead]
    id1 := idx.id1 ++ [c.id1]
    id2 := idx.id2 ++ [c.id2]
    id3 := idx.id3 ++ [c.id3]
    id4 := idx.id4 ++ [c.id4]
    linked := idx.linked ++ [linked] }

/-- Append the payload offset (line 168, only reached after the framing
check passes). -/
def FileIndex.appendOffset (idx : FileIndex) (o : Nat) : FileIndex :=
  { idx with offset := idx.offset ++ [o] }

/-- Mutable state of the indexing loop: file handle, index lists,
`self.records` and `_last_station_id_record`. -/
structure ScanState where
  fh : PyFile
  idx : FileIndex
  records : Nat
  lastStation : Nat
  deriving DecidableEq, Repr

/-- Outcome of one pass through the `while True` body. -/
inductive StepResult where
  /-- the iteration completed; loop again. -/
  | next (s : ScanState)
  /-- `struct.error` was caught: `self._fh.seek(0)` then `break`. -/
  | stop (s : ScanState)
  /-- an uncaught exception propagates out of `_get_index`. -/
  | fatal (e : PyError)

/-- One iteration of the indexing loop (lines 103-176 of `TdlpackIO.py`).

Reads the 4-byte Fortran header, reads `min(L, 44)` bytes as the
classification window, classifies, increments `self.records`, skips to and
reads the 4-byte Fortran trailer, raises on a header/trailer mismatch,
appends the payload offset `pos + 12`, and finally updates
`_last_station_id_record` for station entries.  A `struct.error` on either
4-byte read is caught by the `except` clause, which rewinds to byte 0 and
breaks — note that a `struct.error` on the *trailer* read happens after the
entry lists were extended and `self.records` incremented but before the
offset append and the station update. -/
def scanStep (st : ScanState) : StepResult :=
  let pos := st.fh.pos
  let rd := st.fh.read 4
  match unpackBE rd.1 with
  | .error _ => .stop { st with fh := ⟨st.fh.data, 0⟩ }
  | .ok hdr =>
    let btr : Int := if 44 ≤ hdr then 44 else hdr
    match rd.2.readCount btr with
    | .error e => .fatal e
    | .ok wf =>
      match classifyWindow wf.1 with
      | .error e => .fatal e
      | .ok c =>
        let records1 := st.records + 1
        let fh3 := wf.2.seekRel (hdr - btr)
        let tr := fh3.read 4
        match unpackBE tr.1 with
        | .error _ =>
          .stop { fh := ⟨st.fh.data, 0⟩
                  idx := st.idx.append1 c st.lastStation
                  records := records1
                  lastStation := st.lastStation }
        | .ok trl =>
          if hdr ≠ trl then .fatal .badFortranRecord
          else
            .next { fh := tr.2
                    idx := (st.idx.append1 c st.lastStation).appendOffset (pos + 12)
                    records := records1
                    lastStation := if c.kind = RecKind.station then records1 else st.lastStation }

/-- The indexing loop, driven by fuel.  Every continuing iteration consumes
at least 8 bytes of the stream (two successful 4-byte `struct.unpack` reads
and only forward seeks), so `data.length + 2` units of fuel are never
exhausted and the fuel-out branch is unreachable from `buildIndex`. -/
def scanLoop : Nat → ScanState → Except PyError ScanState
  | 0, st => .ok st
  | fuel + 1, st =>
    match scanStep st with
    | .next st' => scanLoop fuel st'
    | .stop st' => .ok st'
    | .fatal e => .error e

/-- The state at the top of `_get_index`. -/
def initState (data : List Nat) : ScanState :=
  ⟨⟨data, 0⟩, emptyIndex, 0, 0⟩

/-- Lines 103-176: run the loop over the whole stream. -/
def buildIndex (data : List Nat) : Except PyError ScanState :=
  scanLoop (data.length + 2) (initState data)

/-- `tuple(sorted(set(l)))` on an index list holding `None` and integers,
with Python 3 semantics: ordering `None` against an integer raises
`TypeError`, so the sort fails whenever both are present (a mixed set has at
least two elements, and timsort always compares them). -/
def pySortedSet (l : List (Option Int)) : Except PyError (List (Option Int)) :=
  let s := l.dedup
  if none ∈ s ∧ s.any (fun x => x.isSome) then .error .typeError
  else if none ∈ s then .ok [none]
  else .ok (((s.filterMap id).toFinset.sort (· ≤ ·)).map some)

/-- An open-for-read handle after `__init__` finished successfully:
`self._fh`, `self._index`, `self.records`, `self.recordnumber`,
`self.dates`, `self.leadtimes`. -/
structure Handle where
  fh : PyFile
  idx : FileIndex
  records : Nat
  recordnumber : Nat
  dates : List (Option Int)
  leadtimes : List (Option Int)
  deriving DecidableEq, Repr

/-- `open(filename, 'r')`: index the stream (lines 84-180), then compute
`self.dates` and `self.leadtimes` (lines 179-180).  Any uncaught exception
aborts the constructor, so no handle exists for the caller afterwards. -/
def openRead (data : List Nat) : Except PyError Handle := do
  let st ← buildIndex data
  let ds ← pySortedSet st.idx.date
  let ls ← pySortedSet st.idx.lead
  .ok ⟨st.fh, st.idx, st.records, 0, ds, ls⟩

/-- `seek(offset)` (lines 238-249): position the stream at the offset of a
record, in units of 1-based record numbers; `offset == 0` seeks to the first
record's offset but sets the cursor state to 0; a negative offset matches no
branch and is a no-op.  The list access `self._index['offset'][…]` can
raise `IndexError`.  `self._hasindex` is always true on a read handle. -/
def Handle.seek (h : Handle) (offset : Int) : Except PyError Handle :=
  if offset = 0 then
    match h.idx.offset[0]? with
    | some o => .ok { h with fh := h.fh.seekAbs o, recordnumber := 0 }
    | none => .error .indexError
  else if 0 < offset then
    match h.idx.offset[offset.toNat - 1]? with
    | some o => .ok { h with fh := h.fh.seekAbs o, recordnumber := offset.toNat - 1 }
    | none => .error .indexError
  else .ok h

/-- A record object as handed to the external decoder collaborator
(lines 202-217): the record kind selects the collaborator class, and
`ioctet`, `ipack` and (for data records) `reference_date` are the keyword
arguments passed to it.  Station records hand over the byteswapped words.
Unpacking the payload is the collaborator's business and out of scope. -/
structure RecObj where
  kind : RecKind
  ioctet : Int
  ipack : List Int
  refDate : Option Int
  deriving DecidableEq, Repr

/-- The body of the `for n in reclist` loop of `read` (lines 200-218) for a
single 1-based record number `n`. -/
def readOne (h : Handle) (n : Nat) : Except PyError (RecObj × Handle) := do
  let h1 ← h.seek (n : Int)
  let nn := n - 1
  let size ← pyGet h1.idx.size nn
  let (raw, fh2) ← h1.fh.readCount size
  let ipack ← frombuffer raw
  let h2 : Handle := { h1 with fh := fh2 }
  let kind ← pyGet h2.idx.type nn
  match kind with
  | .data => do
    let d ← pyGet h2.idx.date nn
    .ok (⟨.data, size, ipack, d⟩, { h2 with recordnumber := n })
  | .station =>
    .ok (⟨.station, size, ipack.map byteswap32, none⟩, { h2 with recordnumber := n })
  | .trailer =>
    .ok (⟨.trailer, size, ipack, none⟩, { h2 with recordnumber := n })

/-- Run `readOne` over the whole `reclist`, collecting records in order. -/
def readList (h : Handle) : List Nat → Except PyError (List RecObj × Handle)
  | [] => .ok ([], h)
  | n :: rest => do
    let (r, h1) ← readOne h n
    let (rs, h2) ← readList h1 rest
    .ok (r :: rs, h2)

/-- `read(num)` (lines 188-219).  `num == 0` returns `[]`; `num == 1` and
`num > 1` read `reclist = range(recordnumber+1, recordnumber+1+num)`.  The
default `num=None` falls through `num == 0` and `num == 1` (both false) into
`num > 1`, where ordering `None` against an integer raises `TypeError`; a
negative `num` matches no branch, leaving `reclist` unbound, so the `for`
raises `NameError`.  Both failures occur before any record is read or any
state is mutated. -/
def Handle.read (h : Handle) (num : Option Int) : Except PyError (List RecObj × Handle) :=
  match num with
  | none => .error .typeError
  | some n =>
    if n = 0 then .ok ([], h)
    else if 1 ≤ n then readList h (List.range' (h.recordnumber + 1) n.toNat)
    else .error .nameError

/-- `record(rec)` (lines 221-236): `None` returns no record silently;
`rec <= 0` and `rec > self.records` return no record with a warning;
otherwise seek to the record and read exactly one.  The second component
carries the `warnings.warn` messages issued by the call. -/
def Handle.record (h : Handle) (rec : Option Int) :
    Except PyError (Option RecObj × Handle) × List String :=
  match rec with
  | none => (.ok (none, h), [])
  | some r =>
    if r ≤ 0 then (.ok (none, h), ["Record numbers begin at 1."])
    else if (h.records : Int) < r then (.ok (none, h), ["Not that many records in the file."])
    else
      (match h.seek r with
       | .error e => .error e
       | .ok h1 =>
         match h1.read (some 1) with
         | .error e => .error e
         | .ok (recs, h2) =>
           match recs[0]? with
           | some rr => .ok (some rr, h2)
           | none => .error .indexError, [])

/-- `tell()` (lines 324-328). -/
def Handle.tell (h : Handle) : Nat := h.recordnumber

/-- `np.where(np.array(l) == v)[0]` over an index list that mixes `None`
with integers: the positions whose entry equals `v` (comparison with `None`
is `False`), in ascending order. -/
def npWhereEq (l : List (Option Int)) (v : Int) : List Nat :=
  (List.range l.length).filter (fun i => l[i]! = some v)

/-- The candidate position set of one identifier slot in `fetch` (lines
279-297): `-1` is the wildcard and contributes `np.arange(self.records)`;
a non-negative value contributes the matching positions; any other value
matches neither branch, leaving the local `idx` variables unbound, which
raises `NameError` at the `np.concatenate` call. -/
def Handle.slotSet (h : Handle) (l : List (Option Int)) (s : Int) : Except PyError (List Nat) :=
  if s = -1 then .ok (List.range h.records)
  else if 0 ≤ s then .ok (npWhereEq l s)
  else .error .nameError

/-- Lines 257-311 of `fetch`: build the concatenated candidate-position
list (`None` when no criterion was supplied) and `match_count`.  The
string-to-integer conversion of a textual `id` (lines 271-274) reduces the
string form to the 4-integer form modelled here. -/
def Handle.fetchConcat (h : Handle) (date : Option Int)
    (id? : Option (Int × Int × Int × Int)) (lead : Option Int) :
    Except PyError (Option (List Nat) × Nat) := do
  let (idx0, mc0) : Option (List Nat) × Nat :=
    match date with
    | some d => (some (npWhereEq h.idx.date d), 1)
    | none => (none, 0)
  let (idx1, mc1) ← (match id? with
    | some (s1, s2, s3, s4) => do
      let i1 ← h.slotSet h.idx.id1 s1
      let i2 ← h.slotSet h.idx.id2 s2
      let i3 ← h.slotSet h.idx.id3 s3
      let i4 ← h.slotSet h.idx.id4 s4
      match idx0 with
      | some l => pure (some (l ++ i1 ++ i2 ++ i3 ++ i4), mc0 + 4)
      | none => pure (some (i1 ++ i2 ++ i3 ++ i4), mc0 + 4)
    | none => pure (idx0, mc0) : Except PyError (Option (List Nat) × Nat))
  match lead with
  | some ld =>
    match idx1 with
    | some l => pure (some (l ++ npWhereEq h.idx.lead ld), mc1 + 1)
    | none => pure (some (npWhereEq h.idx.lead ld), mc1 + 1)
  | none => pure (idx1, mc1)

/-- Lines 313-316 of `fetch`: `np.unique` with counts over the concatenated
positions, keeping the (ascending) values whose occurrence count equals
`match_count`.  When no criterion was supplied, `np.unique(None)` yields the
single value `None` with count 1, which never equals the `match_count` of 0,
so no position matches. -/
def Handle.fetchPositions (h : Handle) (date : Option Int)
    (id? : Option (Int × Int × Int × Int)) (lead : Option Int) :
    Except PyError (List Nat) := do
  let (c?, mc) ← h.fetchConcat date id? lead
  match c? with
  | none => pure []
  | some l => pure ((l.toFinset.sort (· ≤ ·)).filter (fun v => l.count v = mc))

/-- Lines 320-322 of `fetch`: read the matching records via
`self.record(i+1)`, in ascending position order. -/
def Handle.fetch (h : Handle) (date : Option Int)
    (id? : Option (Int × Int × Int × Int)) (lead : Option Int) :
    Except PyError (List (Option RecObj) × Handle) := do
  let ps ← h.fetchPositions date id? lead
  let rec go (h : Handle) : List Nat → Except PyError (List (Option RecObj) × Handle)
    | [] => .ok ([], h)
    | p :: rest => do
      match (h.record (some ((p : Int) + 1))).1 with
      | .error e => .error e
      | .ok (r, h1) => do
        let (rs, h2) ← go h1 rest
        .ok (r :: rs, h2)
  go h ps

/-- The candidate sets contributed by the supplied criteria, as plain sets
(for comparison with the occurrence-count algorithm); identifier slots use
the same wildcard rule as the code.  This is the specification-side notion
of "the supplied criteria's candidate sets". -/
def Handle.critSets (h : Handle) (date : Option Int)
    (id? : Option (Int × Int × Int × Int)) (lead : Option Int) : List (List Nat) :=
  (match date with
   | some d => [npWhereEq h.idx.date d]
   | none => []) ++
  (match id? with
   | some (s1, s2, s3, s4) =>
     [if s1 = -1 then List.range h.records else npWhereEq h.idx.id1 s1,
      if s2 = -1 then List.range h.records else npWhereEq h.idx.id2 s2,
      if s3 = -1 then List.range h.records else npWhereEq h.idx.id3 s3,
      if s4 = -1 then List.range h.records else npWhereEq h.idx.id4 s4]
   | none => []) ++
  (match lead with
   | some ld => [npWhereEq h.idx.lead ld]
   | none => [])

/-- The plain set intersection of the supplied criteria's candidate sets,
listed in ascending position order. -/
def Handle.interPositions (h : Handle) (date : Option Int)
    (id? : Option (Int × Int × Int × Int)) (lead : Option Int) : List Nat :=
  (List.range h.records).filter
    (fun p => decide (∀ s ∈ h.critSets date id? lead, p ∈ s))

/-- Big-endian encoding of a 32-bit length marker. -/
def be32 (n : Nat) : List Nat :=
  [n / 16777216 % 256, n / 65536 % 256, n / 256 % 256, n % 256]

/-- One frame of the sequential file format: the leading length marker is
the true payload length, the trailing marker `trailer` may disagree. -/
structure Frame where
  payload : List Nat
  trailer : Nat
  deriving DecidableEq, Repr

/-- Serialise one frame. -/
def encFrame (fr : Frame) : List Nat :=
  be32 fr.payload.length ++ fr.payload ++ be32 fr.trailer

/-- Serialise a list of frames back to back. -/
def encFrames (fs : List Frame) : List Nat := (fs.map encFrame).flatten

/-- A well-formed frame: both markers carry the payload length. -/
def mkFrame (p : List Nat) : List Nat := encFrame ⟨p, p.length⟩

/-- A 12-byte station-catalog payload: word 1 (the internal size field) is
4, word 2 is the text `BBBB` (not the data tag). -/
def stationPayload : List Nat := be32 0 ++ be32 4 ++ [66, 66, 66, 66]

/-- A 44-byte data payload: word 2 carries the on-disk tag `TDLP`, word 6
the date 100, words 7-10 the identifier (1, 2, 1234006, 4). -/
def dataPayload : List Nat :=
  be32 0 ++ be32 100 ++ [84, 68, 76, 80] ++ be32 0 ++ be32 0 ++ be32 0 ++ be32 100 ++
  be32 1 ++ be32 2 ++ be32 1234006 ++ be32 4

/-- A 32-byte trailer payload in the real on-disk shape: word 1 (the
internal size field) is 24 and word 6 is 9999, while the frame's length
markers are 32. -/
def trailerPayload : List Nat :=
  be32 0 ++ be32 24 ++ [65, 65, 65, 65] ++ be32 0 ++ be32 0 ++ be32 0 ++ be32 9999 ++ be32 0

/-- A file whose only frame has payload length 8 (shorter than the 12 bytes
the tag check needs). -/
def c3file : List Nat := be32 8 ++ List.replicate 8 0 ++ be32 8

/-- A file whose only frame is a real trailer: leading marker 32, internal
size field 24. -/
def c4file : List Nat := mkFrame trailerPayload

/-- A file with one station-catalog frame followed by one data frame, the
normal layout the module documents. -/
def c2file : List Nat := mkFrame stationPayload ++ mkFrame dataPayload

/-- A file with two station-catalog frames. -/
def twoStationFile : List Nat := mkFrame stationPayload ++ mkFrame stationPayload

/-- A single frame whose trailing marker (16) disagrees with its leading
marker (12). -/
def c5frames : List Frame := [⟨List.replicate 12 0, 16⟩]

/-- A hand-built three-data-record handle for exercising `fetch`. -/
def hFetch : Handle :=
  ⟨⟨[], 0⟩,
   ⟨[0, 0, 0], [0, 0, 0], [.data, .data, .data],
    [some 5, some 5, some 7], [some 1, some 2, some 1],
    [some 10, some 11, some 10], [some 0, some 0, some 0],
    [some 0, some 0, some 0], [some 0, some 0, some 0], [0, 0, 0]⟩,
   3, 0, [], []⟩

/-- An arbitrary handle used as a default when projecting from `Except`. -/
def hDefault : Handle := ⟨⟨[], 0⟩, emptyIndex, 0, 0, [], []⟩

/-- The handle obtained by opening `twoStationFile` for reading. -/
def h2s : Handle := (openRead twoStationFile).toOption.getD hDefault

/-- The handle `h2s` after `seek(1)`. -/
def h2sAt1 : Handle := { h2s with fh := ⟨twoStationFile, 12⟩ }

/-- The first record of `twoStationFile` as handed to the decoder. -/
def c8rec : RecObj := ⟨.station, 4, [1111638594], none⟩

/-- The handle `h2s` after reading record 1. -/
def c8end : Handle := { h2s with fh := ⟨twoStationFile, 16⟩, recordnumber := 1 }

/-- The record number of the most recent station-catalog entry in a kind
list, 0 when there is none: fold left over the 0-based positions, replacing
the accumulator with the 1-based record number at every station entry. -/
def lastStationOf (ts : List RecKind) : Nat :=
  (List.range ts.length).foldl
    (fun acc j => if ts[j]? = some RecKind.station then j + 1 else acc) 0

/-- The per-entry property C9 asserts of a finished index: each entry's
`linked_station_id_record` is the most recent station record number among
the strictly earlier entries (0 when there is none). -/
def LinkedOk (idx : FileIndex) : Prop :=
  idx.linked.length = idx.type.length ∧
  ∀ i, i < idx.linked.length → idx.linked[i]? = some (lastStationOf (idx.type.take i))

/-- The loop invariant of `_get_index` that C9 rests on: the per-entry
property holds of the entries so far, and `_last_station_id_record` is the
most recent station entry's record number. -/
def ScanInv (st : ScanState) : Prop :=
  LinkedOk st.idx ∧ st.lastStation = lastStationOf st.idx.type ∧
    st.records = st.idx.type.length

/-- `struct.unpack('>i', b)` fails on fewer than 4 bytes. -/
theorem unpackBE_short (l : List Nat) (hl : l.length < 4) :
    unpackBE l = .error .structError := by
  match l, hl with
  | [], _ => rfl
  | [_], _ => rfl
  | [_, _], _ => rfl
  | [_, _, _], _ => rfl
  | _ :: _ :: _ :: _ :: _, hl => exact absurd hl (by simp)

/-- C6: when fewer than 4 bytes remain at the top of a frame, the indexing
loop catches the `struct.error` from the header read, seeks the stream back
to byte 0, and terminates normally with the index, record count and station
link accumulated so far intact. -/
theorem scanLoop_end_of_stream (st : ScanState) (fuel : Nat)
    (hshort : st.fh.data.length < st.fh.pos + 4) :
    scanLoop (fuel + 1) st = .ok ⟨⟨st.fh.data, 0⟩, st.idx, st.records, st.lastStation⟩ := by
  have hlen : ((st.fh.data.drop st.fh.pos).take 4).length < 4 := by
    simp only [List.length_take, List.length_drop]
    omega
  have hstep : scanStep st = .stop ⟨⟨st.fh.data, 0⟩, st.idx, st.records, st.lastStation⟩ := by
    simp only [scanStep, PyFile.read]
    rw [unpackBE_short _ hlen]
  rw [scanLoop, hstep]

/-- C6 witness: a scan state two bytes before the end of stream. -/
theorem scanLoop_end_of_stream_witness :
    scanLoop 1 ⟨⟨[7, 7], 0⟩, emptyIndex, 0, 0⟩ = .ok ⟨⟨[7, 7], 0⟩, emptyIndex, 0, 0⟩ :=
  scanLoop_end_of_stream ⟨⟨[7, 7], 0⟩, emptyIndex, 0, 0⟩ 0 (by decide)

/-- C7: a record number at most 0 or above the record count makes `record`
return no record together with a warning; the call does not raise and does
not change the handle. -/
theorem record_out_of_range_soft (h : Handle) (r : Int)
    (hr : r ≤ 0 ∨ (h.records : Int) < r) :
    (h.record (some r)).1 = .ok (none, h) ∧ (h.record (some r)).2 ≠ [] := by
  unfold Handle.record
  rcases hr with hr | hr
  · simp [hr]
  · have hr0 : ¬ r ≤ 0 := by omega
    simp [hr0, hr]

/-- C7 witness: `record(0)` and `record(records+1)` on a concrete handle. -/
theorem record_out_of_range_soft_witness :
    ((h2s.record (some 0)).1 = .ok (none, h2s) ∧ (h2s.record (some 0)).2 ≠ []) ∧
    ((h2s.record (some 3)).1 = .ok (none, h2s) ∧ (h2s.record (some 3)).2 ≠ []) :=
  ⟨record_out_of_range_soft h2s 0 (Or.inl (by decide)),
   record_out_of_range_soft h2s 3 (Or.inr (by decide))⟩

/-- C10: `read()` with the default `None` count raises `TypeError` at the
`num > 1` comparison, and a negative count leaves `reclist` unbound and
raises `NameError` at the loop header; both happen before any record is
read, so the handle is untouched. -/
theorem read_default_or_negative_raises (h : Handle) :
    h.read none = .error .typeError ∧
    ∀ n : Int, n < 0 → h.read (some n) = .error .nameError := by
  refine ⟨rfl, fun n hn => ?_⟩
  unfold Handle.read
  have h0 : ¬ n = 0 := by omega
  have h1 : ¬ 1 ≤ n := by omega
  simp [h0, h1]

/-- C10 witness: the default call and `read(-1)` on a concrete handle. -/
theorem read_default_or_negative_raises_witness :
    h2s.read none = .error .typeError ∧ h2s.read (some (-1)) = .error .nameError :=
  ⟨(read_default_or_negative_raises h2s).1,
   (read_default_or_negative_raises h2s).2 (-1) (by decide)⟩

/-- C2 (code bug): opening the documented normal file layout — a station
record followed by a data record — aborts with `TypeError` under Python 3,
because `sorted(set(self._index['date']))` must order `None` (the station
entry's date) against the data record's integer date.  `distinct_dates` is
never computed for such files, contradicting the claim that the null dates
of station and trailer entries are excluded. -/
theorem dates_sort_type_error : openRead c2file = .error .typeError := by decide

/-- C3 counterexample: a frame with payload length 8 (< 44) is not
classified at all: the tag access `temp[2]` needs 12 bytes and raises an
uncaught `IndexError`, which aborts index construction. -/
theorem short_frame_classification_raises :
    classifyWindow (List.replicate 8 0) = .error .indexError ∧
    openRead c3file = .error .indexError := by decide

/-- C4 counterexample: a frame whose leading length marker is 32 — not 24 —
is classified as a trailer, because the code tests word 1 of the payload
(the internal size field, 24 here) rather than the leading marker. -/
theorem trailer_despite_marker_32 :
    (openRead c4file).map (fun h => h.idx.type) = .ok [RecKind.trailer] ∧
    c4file.take 4 = be32 32 ∧ (32 : Int) ≠ 24 := by decide

/-- A successful `readList` over a single record number yields exactly one
record object. -/
theorem readList_singleton (h : Handle) (m : Nat) (recs : List RecObj) (h2 : Handle)
    (hok : readList h [m] = .ok (recs, h2)) : ∃ r, recs = [r] := by
  unfold readList at hok
  cases hro : readOne h m with
  | error e => rw [hro] at hok; exact absurd hok (by simp [Bind.bind, Except.bind])
  | ok p =>
    rw [hro] at hok
    simp only [Bind.bind, Except.bind, readList] at hok
    exact ⟨p.1, by injection hok with h'; rw [← (Prod.mk.injEq _ _ _ _).mp h' |>.1]⟩

/-- C8: for every valid record number, `record(n)` returns exactly the
record and final handle state that `seek(n)` followed by `read(1)`
produces, with no warning issued. -/
theorem record_eq_seek_then_read (h : Handle) (n : Int) (h1 : Handle)
    (recs : List RecObj) (h2 : Handle)
    (hn1 : 1 ≤ n) (hn2 : n ≤ (h.records : Int))
    (hseek : h.seek n = .ok h1) (hread : h1.read (some 1) = .ok (recs, h2)) :
    (h.record (some n)).1 = .ok (recs[0]?, h2) ∧ (h.record (some n)).2 = [] := by
  have hr0 : ¬ n ≤ 0 := by omega
  have hr2 : ¬ (h.records : Int) < n := by omega
  have hone : readList h1 [h1.recordnumber + 1] = .ok (recs, h2) := by
    have : h1.read (some 1) = readList h1 [h1.recordnumber + 1] := by
      unfold Handle.read
      norm_num [List.range']
    rw [← this]; exact hread
  obtain ⟨r, hr⟩ := readList_singleton h1 (h1.recordnumber + 1) recs h2 hone
  subst hr
  unfold Handle.record
  simp [hr0, hr2, hseek, hread]

/-- C8 witness: `record(1)` on the two-station file agrees with `seek(1)`
followed by `read(1)`. -/
theorem record_eq_seek_then_read_witness :
    (h2s.record (some 1)).1 = .ok (([c8rec] : List RecObj)[0]?, c8end) ∧
    (h2s.record (some 1)).2 = [] :=
  record_eq_seek_then_read h2s 1 h2sAt1 [c8rec] c8end (by decide) (by decide)
    (by decide) (by decide)

/-- The word list of a buffer holds one word per four bytes. -/
theorem beWords_length : ∀ b : List Nat, (beWords b).length = b.length / 4
  | [] => by simp [beWords]
  | [_] => by simp [beWords]
  | [_, _] => by simp [beWords]
  | [_, _, _] => by simp [beWords]
  | _ :: _ :: _ :: _ :: rest => by
    simp only [beWords, List.length_cons, beWords_length rest]
    omega

/-- In-bounds element access succeeds. -/
theorem pyGet_lt {α : Type} [Inhabited α] (l : List α) (k : Nat) (hk : k < l.length) :
    pyGet l k = .ok l[k]! := by
  unfold pyGet
  rw [List.getElem?_eq_getElem hk, getElem!_pos l k hk]

/-- Out-of-bounds element access raises `IndexError`. -/
theorem pyGet_ge {α : Type} (l : List α) (k : Nat) (hk : l.length ≤ k) :
    pyGet l k = .error .indexError := by
  unfold pyGet
  rw [List.getElem?_eq_none hk]

/-- C4 (amended): for a frame whose classification window holds at least 28
bytes (so that every word the branch consults exists) and whose tag text
decodes but is not `'PLDT'`, the frame is classified as a trailer exactly
when word 1 of the payload — the internal size field, not the frame's
leading length marker — is 24 and word 6 is 9999; otherwise it is a station
record with the synthetic identifier (400001000, 0, 0, 0). -/
theorem classify_nonpldt_trailer_iff (w : List Nat) (h4 : w.length % 4 = 0)
    (h28 : 28 ≤ w.length)
    (hval : utf8Valid (i32leBytes ((beWords w)[2]!)) = true)
    (hnp : i32leBytes ((beWords w)[2]!) ≠ pldtBytes) :
    classifyWindow w =
      .ok (if (beWords w)[1]! = 24 ∧ (beWords w)[6]! = 9999 then
        ⟨(beWords w)[1]!, .trailer, none, none, none, none, none, none⟩
      else
        ⟨(beWords w)[1]!, .station, none, none, some 400001000, some 0, some 0, some 0⟩) := by
  have hlen : (beWords w).length = w.length / 4 := beWords_length w
  have hk2 : 2 < (beWords w).length := by omega
  have hk1 : 1 < (beWords w).length := by omega
  have hk6 : 6 < (beWords w).length := by omega
  have hfb : frombuffer w = .ok (beWords w) := by
    unfold frombuffer
    rw [if_pos h4]
  have hhdr : headerIsPLDT ((beWords w)[2]!) = .ok false := by
    unfold headerIsPLDT
    simp [hval, hnp]
  unfold classifyWindow
  rw [hfb]
  simp only [Bind.bind, Except.bind, pyGet_lt _ _ hk2, hhdr, pyGet_lt _ _ hk1,
    pyGet_lt _ _ hk6, Bool.false_eq_true, if_false]
  by_cases h24 : (beWords w)[1]! = 24
  · by_cases h99 : (beWords w)[6]! = 9999
    · simp [h24, h99]
    · simp [h24, h99]
  · simp [h24]

/-- C4 witness: the real 32-byte trailer window, whose word 1 is 24 and
word 6 is 9999, instantiates the amended classification rule. -/
theorem classify_nonpldt_trailer_iff_witness :
    classifyWindow trailerPayload =
      .ok (if (beWords trailerPayload)[1]! = 24 ∧ (beWords trailerPayload)[6]! = 9999 then
        ⟨(beWords trailerPayload)[1]!, .trailer, none, none, none, none, none, none⟩
      else
        ⟨(beWords trailerPayload)[1]!, .station, none, none, some 400001000, some 0, some 0,
          some 0⟩) :=
  classify_nonpldt_trailer_iff trailerPayload (by decide) (by decide) (by decide) (by decide)

/-- C3 (amended): classification never reads file bytes beyond the
`min(L, 44)`-byte window it was handed, but it completes successfully only
when every word it consults exists in that window: the window must be a
whole number of words, at least 12 bytes are needed for the tag word, a
tag that decodes to `'PLDT'` additionally needs the full 44 bytes (word
10), and a non-`'PLDT'` frame whose word 1 is 24 needs 28 bytes (word 6);
the tag bytes must also decode as UTF-8.  A short station or trailer frame
violating these bounds aborts the scan with an uncaught `IndexError`
rather than being classified. -/
theorem classify_window_ok_iff (w : List Nat) :
    (∃ c, classifyWindow w = .ok c) ↔
      (w.length % 4 = 0 ∧ 12 ≤ w.length ∧
       utf8Valid (i32leBytes ((beWords w)[2]!)) = true ∧
       (i32leBytes ((beWords w)[2]!) = pldtBytes → 44 ≤ w.length) ∧
       (i32leBytes ((beWords w)[2]!) ≠ pldtBytes → (beWords w)[1]! = 24 → 28 ≤ w.length)) := by
  have hlen : (beWords w).length = w.length / 4 := beWords_length w
  by_cases h4 : w.length % 4 = 0
  case neg =>
    have hfb : frombuffer w = .error .valueError := by
      unfold frombuffer
      rw [if_neg h4]
    simp [classifyWindow, hfb, Bind.bind, Except.bind, h4]
  case pos =>
  have hfb : frombuffer w = .ok (beWords w) := by
    unfold frombuffer
    rw [if_pos h4]
  by_cases h12 : 12 ≤ w.length
  case neg =>
    have hg : pyGet (beWords w) 2 = .error .indexError := pyGet_ge _ _ (by omega)
    simp [classifyWindow, hfb, hg, Bind.bind, Except.bind, h12]
  case pos =>
  have hg2 : pyGet (beWords w) 2 = .ok ((beWords w)[2]!) := pyGet_lt _ _ (by omega)
  have hg1 : pyGet (beWords w) 1 = .ok ((beWords w)[1]!) := pyGet_lt _ _ (by omega)
  by_cases hval : utf8Valid (i32leBytes ((beWords w)[2]!)) = true
  case neg =>
    have hh : headerIsPLDT ((beWords w)[2]!) = .error .unicodeDecodeError := by
      unfold headerIsPLDT
      rw [if_neg hval]
    simp [classifyWindow, hfb, hg2, hh, Bind.bind, Except.bind, hval]
  case pos =>
  by_cases htag : i32leBytes ((beWords w)[2]!) = pldtBytes
  case pos =>
    have hh : headerIsPLDT ((beWords w)[2]!) = .ok true := by
      unfold headerIsPLDT
      rw [if_pos hval]
      simp [htag]
    by_cases h44 : 44 ≤ w.length
    case pos =>
      have hok : classifyWindow w = .ok
          ⟨(beWords w)[1]!, .data, some ((beWords w)[6]!),
           some (pyLast3 ((beWords w)[9]!)), some ((beWords w)[7]!),
           some ((beWords w)[8]!), some ((beWords w)[9]!), some ((beWords w)[10]!)⟩ := by
        simp only [classifyWindow, hfb, hg2, hh, hg1, Bind.bind, Except.bind, if_true,
          pyGet_lt (beWords w) 6 (by omega), pyGet_lt (beWords w) 9 (by omega), pyGet_lt (beWords w) 7 (by omega),
          pyGet_lt (beWords w) 8 (by omega), pyGet_lt (beWords w) 10 (by omega)]
      constructor
      · exact fun _ => ⟨h4, h12, hval, fun _ => h44, fun hn => absurd htag hn⟩
      · exact fun _ => ⟨_, hok⟩
    case neg =>
      have herr : classifyWindow w = .error .indexError := by
        by_cases h28 : 28 ≤ w.length
        · by_cases h40 : 40 ≤ w.length
          · simp only [classifyWindow, hfb, hg2, hh, hg1, Bind.bind, Except.bind, if_true,
              pyGet_lt (beWords w) 6 (by omega), pyGet_lt (beWords w) 9 (by omega), pyGet_lt (beWords w) 7 (by omega),
              pyGet_lt (beWords w) 8 (by omega), pyGet_ge (beWords w) 10 (by omega)]
          · simp only [classifyWindow, hfb, hg2, hh, hg1, Bind.bind, Except.bind, if_true,
              pyGet_lt (beWords w) 6 (by omega), pyGet_ge (beWords w) 9 (by omega)]
        · simp only [classifyWindow, hfb, hg2, hh, hg1, Bind.bind, Except.bind, if_true,
            pyGet_ge (beWords w) 6 (by omega)]
      constructor
      · rintro ⟨c, hc⟩
        rw [herr] at hc
        cases hc
      · rintro ⟨-, -, -, hP, -⟩
        exact absurd (hP htag) h44
  case neg =>
    have hh : headerIsPLDT ((beWords w)[2]!) = .ok false := by
      unfold headerIsPLDT
      rw [if_pos hval]
      simp [htag]
    by_cases h24 : (beWords w)[1]! = 24
    case pos =>
      by_cases h28 : 28 ≤ w.length
      case pos =>
        have hok : ∃ c, classifyWindow w = .ok c := by
          by_cases h99 : (beWords w)[6]! = 9999
          · refine ⟨⟨24, .trailer, none, none, none, none, none, none⟩, ?_⟩
            simp only [classifyWindow, hfb, hg2, hh, hg1, Bind.bind, Except.bind,
              Bool.false_eq_true, if_false, h24, if_true, pyGet_lt (beWords w) 6 (by omega), h99]
          · refine ⟨⟨24, .station, none, none, some 400001000, some 0, some 0, some 0⟩, ?_⟩
            simp only [classifyWindow, hfb, hg2, hh, hg1, Bind.bind, Except.bind,
              Bool.false_eq_true, if_false, h24, if_true, pyGet_lt (beWords w) 6 (by omega)]
            rw [if_neg h99]
        constructor
        · exact fun _ => ⟨h4, h12, hval, fun hp => absurd hp htag, fun _ _ => h28⟩
        · exact fun _ => hok
      case neg =>
        have herr : classifyWindow w = .error .indexError := by
          simp only [classifyWindow, hfb, hg2, hh, hg1, Bind.bind, Except.bind,
            Bool.false_eq_true, if_false, h24, if_true, pyGet_ge (beWords w) 6 (by omega)]
        constructor
        · rintro ⟨c, hc⟩
          rw [herr] at hc
          cases hc
        · rintro ⟨-, -, -, -, hT⟩
          exact absurd (hT htag h24) h28
    case neg =>
      have hok : classifyWindow w = .ok
          ⟨(beWords w)[1]!, .station, none, none, some 400001000, some 0, some 0, some 0⟩ := by
        simp only [classifyWindow, hfb, hg2, hh, hg1, Bind.bind, Except.bind,
          Bool.false_eq_true, if_false]
        rw [if_neg h24]
      constructor
      · exact fun _ => ⟨h4, h12, hval, fun hp => absurd hp htag, fun _ h24' => absurd h24' h24⟩
      · exact fun _ => ⟨_, hok⟩

/-- Appending one kind moves the most-recent-station marker to the new
record number exactly when the new entry is a station record. -/
theorem lastStationOf_append (ts : List RecKind) (k : RecKind) :
    lastStationOf (ts ++ [k]) =
      if k = RecKind.station then ts.length + 1 else lastStationOf ts := by
  unfold lastStationOf
  have hlen : (ts ++ [k]).length = ts.length + 1 := by simp
  rw [hlen, List.range_succ, List.foldl_append, List.foldl_cons, List.foldl_nil]
  have hget : (ts ++ [k])[ts.length]? = some k := by
    rw [List.getElem?_append_right (le_refl ts.length)]
    simp
  rw [hget]
  have hcong : (List.range ts.length).foldl
      (fun acc j => if (ts ++ [k])[j]? = some RecKind.station then j + 1 else acc) 0 =
      (List.range ts.length).foldl
      (fun acc j => if ts[j]? = some RecKind.station then j + 1 else acc) 0 := by
    apply List.foldl_ext
    intro b j hj
    rw [List.mem_range] at hj
    rw [List.getElem?_append_left hj]
  rw [hcong]
  by_cases hk : k = RecKind.station
  · simp [hk]
  · simp [hk]

/-- The most-recent-station marker never exceeds the entry count. -/
theorem lastStationOf_le (ts : List RecKind) : lastStationOf ts ≤ ts.length := by
  unfold lastStationOf
  have haux : ∀ (l : List Nat) (acc : Nat), (∀ j ∈ l, j < ts.length) → acc ≤ ts.length →
      l.foldl (fun acc j => if ts[j]? = some RecKind.station then j + 1 else acc) acc ≤
        ts.length := by
    intro l
    induction l with
    | nil => intro acc _ h; simpa using h
    | cons j r ih =>
      intro acc hmem hacc
      simp only [List.foldl_cons]
      apply ih
      · intro x hx
        exact hmem x (List.mem_cons_of_mem _ hx)
      · by_cases hj : ts[j]? = some RecKind.station
        · have := hmem j (List.mem_cons_self j r)
          simp only [hj, if_pos]
          omega
        · simpa [hj] using hacc
  apply haux
  · intro j hj
    rw [List.mem_range] at hj
    exact hj
  · omega

/-- Appending one classified entry preserves the per-entry station-link
property when the appended link is the current most-recent-station
marker. -/
theorem linkedOk_append (idx : FileIndex) (c : Classified)
    (hok : LinkedOk idx) :
    LinkedOk (idx.append1 c (lastStationOf idx.type)) := by
  obtain ⟨hlen, hall⟩ := hok
  constructor
  · simp [FileIndex.append1, hlen]
  · intro i hi
    simp only [FileIndex.append1, List.length_append, List.length_cons, List.length_nil] at hi
    by_cases hlt : i < idx.linked.length
    · have h1 : (idx.linked ++ [lastStationOf idx.type])[i]? = idx.linked[i]? :=
        List.getElem?_append_left hlt

      have h2 : (idx.type ++ [c.kind]).take i = idx.type.take i := by
        apply List.take_append_of_le_length
        omega
      simp only [FileIndex.append1, h1, h2]
      exact hall i hlt
    · have hieq : i = idx.linked.length := by omega
      subst hieq
      have h1 : (idx.linked ++ [lastStationOf idx.type])[idx.linked.length]? =
          some (lastStationOf idx.type) := by
        rw [List.getElem?_append_right (le_refl _)]
        simp
      have h2 : (idx.type ++ [c.kind]).take idx.linked.length = idx.type := by
        rw [hlen, List.take_left]
      simp only [FileIndex.append1, h1, h2]

/-- Appending the offset afterwards does not touch the station links. -/
theorem linkedOk_appendOffset (idx : FileIndex) (o : Nat) (hok : LinkedOk idx) :
    LinkedOk (idx.appendOffset o) := hok

/-- Appending one full entry (classification lists, offset, record count,
and the station update of lines 170-172) preserves the scan invariant. -/
theorem scanInv_extend (st : ScanState) (c : Classified) (fh' : PyFile) (o : Nat)
    (hinv : ScanInv st) :
    ScanInv ⟨fh', (st.idx.append1 c st.lastStation).appendOffset o, st.records + 1,
      if c.kind = RecKind.station then st.records + 1 else st.lastStation⟩ := by
  obtain ⟨hok, hlast, hrec⟩ := hinv
  refine ⟨?_, ?_, ?_⟩
  · rw [hlast]
    exact linkedOk_appendOffset _ _ (linkedOk_append st.idx _ hok)
  · simp only [FileIndex.appendOffset, FileIndex.append1]
    rw [lastStationOf_append]
    by_cases hk : c.kind = RecKind.station
    · simp [hk, hrec]
    · simp [hk, hlast]
  · simp [FileIndex.appendOffset, FileIndex.append1, hrec]

/-- A continuing iteration of the indexing loop preserves the scan
invariant. -/
theorem scanStep_next_inv (st st' : ScanState) (hinv : ScanInv st)
    (h : scanStep st = .next st') : ScanInv st' := by
  unfold scanStep at h
  dsimp only at h
  split at h
  · cases h
  · split at h
    · cases h
    · split at h
      · cases h
      · split at h
        · cases h
        · split at h
          · cases h
          · injection h with h
            subst h
            exact scanInv_extend st _ _ _ hinv

/-- A `struct.error`-terminated iteration (the truncated-trailer corner)
still leaves the per-entry station-link property intact: the freshly
appended entry recorded the current marker, and the marker update it never
reached concerns no later entry. -/
theorem scanStep_stop_linked (st st' : ScanState) (hinv : ScanInv st)
    (h : scanStep st = .stop st') : LinkedOk st'.idx := by
  unfold scanStep at h
  dsimp only at h
  split at h
  · injection h with h
    subst h
    exact hinv.1
  · split at h
    · cases h
    · split at h
      · cases h
      · split at h
        · injection h with h
          subst h
          rw [hinv.2.1]
          exact linkedOk_append st.idx _ hinv.1
        · split at h
          · cases h
          · cases h

/-- Running the indexing loop from an invariant state yields an index with
the per-entry station-link property, whatever fuel is supplied. -/
theorem scanLoop_linked (fuel : Nat) (st st' : ScanState) (hinv : ScanInv st)
    (h : scanLoop fuel st = .ok st') : LinkedOk st'.idx := by
  induction fuel generalizing st with
  | zero =>
    injection h with h
    subst h
    exact hinv.1
  | succ f ih =>
    rw [scanLoop] at h
    cases hstep : scanStep st with
    | next s1 =>
      rw [hstep] at h
      exact ih s1 (scanStep_next_inv st s1 hinv hstep) h
    | stop s1 =>
      rw [hstep] at h
      injection h with h
      subst h
      exact scanStep_stop_linked st s1 hinv hstep
    | fatal e =>
      rw [hstep] at h
      cases h

/-- The state at the top of `_get_index` satisfies the scan invariant. -/
theorem scanInv_init (data : List Nat) : ScanInv (initState data) := by
  refine ⟨⟨rfl, ?_⟩, rfl, rfl⟩
  intro i hi
  simp [initState, emptyIndex] at hi

/-- C9: in every successfully built index, each entry's
`linked_station_id_record` is exactly the record number of the most recent
station entry among the strictly earlier entries (0 when none exists) — in
particular `_last_station_id_record` is moved to a station entry's record
number only after that entry is appended, so a station entry links to the
*previous* station — and the link never exceeds the entry's own 0-based
position (hence stays below its own 1-based record number). -/
theorem linked_station_invariant (data : List Nat) (h : Handle)
    (hok : openRead data = .ok h) (i : Nat) (hi : i < h.idx.linked.length) :
    h.idx.linked[i]? = some (lastStationOf (h.idx.type.take i)) ∧
    h.idx.linked[i]! ≤ i := by
  unfold openRead at hok
  cases hb : buildIndex data with
  | error e =>
    rw [hb] at hok
    exact absurd hok (by simp [Bind.bind, Except.bind])
  | ok st =>
    rw [hb] at hok
    simp only [Bind.bind, Except.bind] at hok
    cases hd : pySortedSet st.idx.date with
    | error e =>
      rw [hd] at hok
      cases hok
    | ok ds =>
      rw [hd] at hok
      cases hl : pySortedSet st.idx.lead with
      | error e =>
        rw [hl] at hok
        cases hok
      | ok ls =>
        rw [hl] at hok
        injection hok with hok
        have hidx : h.idx = st.idx := by rw [← hok]
        obtain ⟨hlen, hall⟩ := scanLoop_linked _ _ _ (scanInv_init data) hb
        rw [hidx] at hi ⊢
        have h1 := hall i hi
        refine ⟨h1, ?_⟩
        have h2 : st.idx.linked[i]! = lastStationOf (st.idx.type.take i) := by
          rw [getElem!_pos st.idx.linked i hi] at *
          rw [List.getElem?_eq_getElem hi] at h1
          injection h1
        rw [h2]
        have h3 := lastStationOf_le (st.idx.type.take i)
        have h4 : (st.idx.type.take i).length ≤ i := by
          simp [List.length_take]
        omega

/-- C9 witness: the second entry of the two-station file links to the first
station record. -/
theorem linked_station_invariant_witness :
    h2s.idx.linked[1]? = some (lastStationOf (h2s.idx.type.take 1)) ∧
    h2s.idx.linked[1]! ≤ 1 :=
  linked_station_invariant twoStationFile h2s (by decide) 1 (by decide)

/-- A 4-byte big-endian length marker round-trips through
`struct.unpack('>i', …)` for sizes below 2^31. -/
theorem unpackBE_be32 (n : Nat) (hn : n < 2147483648) :
    unpackBE (be32 n) = .ok (n : Int) := by
  unfold be32 unpackBE sbe32
  have h1 : n / 16777216 % 256 * 16777216 + n / 65536 % 256 * 65536 +
      n / 256 % 256 * 256 + n % 256 = n := by omega
  simp only [h1]
  rw [if_pos (by exact_mod_cast hn)]

/-- Walking one frame: at a frame boundary the iteration either aborts
fatally (bad classification, or the framing mismatch when the trailing
marker disagrees), or — only when the two markers agree — completes and
leaves the cursor at the next frame boundary. -/
theorem scanStep_frame (st : ScanState) (p : List Nat) (t : Nat) (rest : List Nat)
    (hdrop : st.fh.data.drop st.fh.pos = encFrame ⟨p, t⟩ ++ rest)
    (hp : p.length < 2147483648) (ht : t < 2147483648) :
    (∃ e, scanStep st = .fatal e) ∨
    (t = p.length ∧ ∃ st', scanStep st = .next st' ∧
      st'.fh = ⟨st.fh.data, st.fh.pos + 8 + p.length⟩) := by
  have hsplit : st.fh.data.drop st.fh.pos =
      p.length / 16777216 % 256 :: p.length / 65536 % 256 :: p.length / 256 % 256 ::
      p.length % 256 :: (p ++ (be32 t ++ rest)) := by
    rw [hdrop]
    simp [encFrame, be32]
  have hrd1 : (st.fh.read 4).1 = be32 p.length := by
    simp only [PyFile.read, hsplit]
    rfl
  have hrd2 : (st.fh.read 4).2 = ⟨st.fh.data, st.fh.pos + 4⟩ := by
    simp only [PyFile.read, hsplit]
    rfl
  have hdrop4 : st.fh.data.drop (st.fh.pos + 4) = p ++ (be32 t ++ rest) := by
    have h1 : st.fh.data.drop (st.fh.pos + 4) = (st.fh.data.drop st.fh.pos).drop 4 := by
      rw [List.drop_drop]
    rw [h1, hsplit]
    rfl
  set L : Int := (p.length : Int) with hL
  set btr : Int := if 44 ≤ L then 44 else L with hbtr
  have hbtrCases : (btr = 44 ∧ 44 ≤ (p.length : Int)) ∨
      (btr = (p.length : Int) ∧ (p.length : Int) < 44) := by
    rw [hbtr, hL]
    split
    · exact Or.inl ⟨rfl, by omega⟩
    · exact Or.inr ⟨rfl, by omega⟩
  have hbtr0 : 0 ≤ btr := by rcases hbtrCases with ⟨h, h'⟩ | ⟨h, h'⟩ <;> omega
  have hbtrN : btr.toNat ≤ p.length := by
    rcases hbtrCases with ⟨h, h'⟩ | ⟨h, h'⟩ <;> omega
  have hrc : (⟨st.fh.data, st.fh.pos + 4⟩ : PyFile).readCount btr =
      .ok ((⟨st.fh.data, st.fh.pos + 4⟩ : PyFile).read btr.toNat) := by
    unfold PyFile.readCount
    rw [if_pos hbtr0]
  have hwin1 : ((⟨st.fh.data, st.fh.pos + 4⟩ : PyFile).read btr.toNat).1 = p.take btr.toNat := by
    simp only [PyFile.read, hdrop4]
    exact List.take_append_of_le_length hbtrN
  have hwinlen : (p.take btr.toNat).length = btr.toNat := by
    simp only [List.length_take]
    omega
  have hwin2 : ((⟨st.fh.data, st.fh.pos + 4⟩ : PyFile).read btr.toNat).2 =
      ⟨st.fh.data, st.fh.pos + 4 + btr.toNat⟩ := by
    simp only [PyFile.read, hdrop4]
    rw [List.take_append_of_le_length hbtrN, hwinlen]
  have hseek : (⟨st.fh.data, st.fh.pos + 4 + btr.toNat⟩ : PyFile).seekRel (L - btr) =
      ⟨st.fh.data, st.fh.pos + 4 + p.length⟩ := by
    unfold PyFile.seekRel
    have h2 : (((st.fh.pos + 4 + btr.toNat : Nat) : Int) + (L - btr)).toNat =
        st.fh.pos + 4 + p.length := by
      rcases hbtrCases with ⟨h, h'⟩ | ⟨h, h'⟩ <;> rw [hL] <;> omega
    rw [h2]
  have hdropTr : st.fh.data.drop (st.fh.pos + 4 + p.length) = be32 t ++ rest := by
    have h1 : st.fh.data.drop (st.fh.pos + 4 + p.length) =
        (st.fh.data.drop (st.fh.pos + 4)).drop p.length := by
      rw [List.drop_drop]
    rw [h1, hdrop4, List.drop_append_of_le_length (le_refl _)]
    simp
  have htr1 : ((⟨st.fh.data, st.fh.pos + 4 + p.length⟩ : PyFile).read 4).1 = be32 t := by
    simp only [PyFile.read, hdropTr]
    simp [be32]
  have htr2 : ((⟨st.fh.data, st.fh.pos + 4 + p.length⟩ : PyFile).read 4).2 =
      ⟨st.fh.data, st.fh.pos + 8 + p.length⟩ := by
    simp only [PyFile.read, hdropTr]
    simp only [be32, List.cons_append, List.nil_append]
    have : ([p.length / 16777216 % 256, p.length / 65536 % 256, p.length / 256 % 256,
        p.length % 256] : List Nat).length = 4 := rfl
    simp only [PyFile.mk.injEq]
    refine ⟨trivial, ?_⟩
    have h4 : ((t / 16777216 % 256 :: (t / 65536 % 256 :: (t / 256 % 256 ::
        (t % 256 :: rest)))).take 4).length = 4 := rfl
    rw [h4]
    omega
  unfold scanStep
  dsimp only
  rw [hrd1, hrd2, unpackBE_be32 p.length hp]
  dsimp only
  rw [← hL, ← hbtr, hrc]
  dsimp only
  rw [hwin1]
  cases hcl : classifyWindow (p.take btr.toNat) with
  | error e =>
    exact Or.inl ⟨e, rfl⟩
  | ok c =>
    dsimp only
    rw [hwin2, hseek, htr1, htr2, unpackBE_be32 t ht]
    dsimp only
    by_cases hne : L ≠ (t : Int)
    · rw [if_pos hne]
      exact Or.inl ⟨.badFortranRecord, rfl⟩
    · rw [if_neg hne]
      refine Or.inr ⟨?_, _, rfl, rfl⟩
      rw [hL] at hne
      omega

/-- Serialisation distributes over cons. -/
theorem encFrames_cons (fr : Frame) (fs : List Frame) :
    encFrames (fr :: fs) = encFrame fr ++ encFrames fs := by
  simp [encFrames]

/-- A frame list never encodes to fewer bytes than it has frames. -/
theorem length_le_encFrames (fs : List Frame) : fs.length ≤ (encFrames fs).length := by
  induction fs with
  | nil => simp [encFrames]
  | cons fr fs ih =>
    rw [encFrames_cons]
    simp only [List.length_append, List.length_cons]
    have h1 : 1 ≤ (encFrame fr).length := by
      simp [encFrame, be32]
    omega

/-- Scanning a stream that continues with a frame list containing a
marker mismatch always ends in an uncaught exception, given fuel for the
frames ahead. -/
theorem scanLoop_frames_error (frames : List Frame) (rest : List Nat) (st : ScanState)
    (fuel : Nat)
    (hdrop : st.fh.data.drop st.fh.pos = encFrames frames ++ rest)
    (hsz : ∀ fr ∈ frames, fr.payload.length < 2147483648 ∧ fr.trailer < 2147483648)
    (hbad : ∃ fr ∈ frames, fr.trailer ≠ fr.payload.length)
    (hfuel : frames.length + 1 ≤ fuel) :
    ∃ e, scanLoop fuel st = .error e := by
  induction frames generalizing st fuel with
  | nil => simp at hbad
  | cons fr frs ih =>
    obtain ⟨f, rfl⟩ : ∃ f, fuel = f + 1 := ⟨fuel - 1, by omega⟩
    have hdrop' : st.fh.data.drop st.fh.pos =
        encFrame ⟨fr.payload, fr.trailer⟩ ++ (encFrames frs ++ rest) := by
      rw [hdrop, encFrames_cons, List.append_assoc]
    have hszh := hsz fr (List.mem_cons_self fr frs)
    rcases scanStep_frame st fr.payload fr.trailer (encFrames frs ++ rest) hdrop' hszh.1
        hszh.2 with ⟨e, he⟩ | ⟨hteq, st', hnext, hfh⟩
    · refine ⟨e, ?_⟩
      rw [scanLoop, he]
    · have hbad' : ∃ fr' ∈ frs, fr'.trailer ≠ fr'.payload.length := by
        rcases hbad with ⟨fr', hmem, hne⟩
        rcases List.mem_cons.mp hmem with hm | hm
        · subst hm
          exact absurd hteq hne
        · exact ⟨fr', hm, hne⟩
      have hdrop2 : st'.fh.data.drop st'.fh.pos = encFrames frs ++ rest := by
        rw [hfh]
        have h1 : st.fh.data.drop (st.fh.pos + 8 + fr.payload.length) =
            (st.fh.data.drop st.fh.pos).drop (8 + fr.payload.length) := by
          rw [List.drop_drop]
          congr 1
          omega
        show st.fh.data.drop (st.fh.pos + 8 + fr.payload.length) = encFrames frs ++ rest
        rw [h1, hdrop, encFrames_cons, List.append_assoc]
        have h2 : (encFrame fr).length = 8 + fr.payload.length := by
          simp [encFrame, be32]
          omega
        rw [← h2, List.drop_left]
      obtain ⟨e, he⟩ := ih st' f hdrop2 (fun fr' h' => hsz fr' (List.mem_cons_of_mem _ h'))
        hbad' (by simp only [List.length_cons] at hfuel; omega)
      refine ⟨e, ?_⟩
      rw [scanLoop, hnext]
      exact he

/-- C5: a file beginning with a sequence of frames among which some frame's
trailing length marker disagrees with its leading marker cannot be opened
for reading: index construction raises an uncaught exception (the framing
`IOError` at that frame, unless an earlier defect aborts the build first),
so the caller gets no handle and no record of the file is accessible. -/
theorem framing_mismatch_fatal (frames : List Frame) (rest : List Nat)
    (hsz : ∀ fr ∈ frames, fr.payload.length < 2147483648 ∧ fr.trailer < 2147483648)
    (hbad : ∃ fr ∈ frames, fr.trailer ≠ fr.payload.length) :
    ∃ e, openRead (encFrames frames ++ rest) = .error e := by
  obtain ⟨e, he⟩ := scanLoop_frames_error frames rest
      (initState (encFrames frames ++ rest)) ((encFrames frames ++ rest).length + 2)
      (by simp [initState]) hsz hbad
      (by
        have h1 := length_le_encFrames frames
        simp only [List.length_append]
        omega)
  refine ⟨e, ?_⟩
  unfold openRead buildIndex
  rw [he]
  rfl

/-- C5 witness: a one-frame file whose markers are 12 and 16. -/
theorem framing_mismatch_fatal_witness :
    ∃ e, openRead (encFrames c5frames ++ []) = .error e :=
  framing_mismatch_fatal c5frames [] (by decide) (by decide)

/-- The candidate set of one equality criterion never repeats a position. -/
theorem npWhereEq_nodup (l : List (Option Int)) (v : Int) : (npWhereEq l v).Nodup :=
  List.Nodup.filter _ (List.nodup_range _)

/-- Membership in the candidate set of one equality criterion. -/
theorem npWhereEq_mem (l : List (Option Int)) (v : Int) (p : Nat) :
    p ∈ npWhereEq l v ↔ p < l.length ∧ l[p]! = some v := by
  simp [npWhereEq, List.mem_filter, List.mem_range]

/-- Over duplicate-free candidate sets, a value occurs in the concatenation
at most once per set. -/
theorem count_flatten_le (sets : List (List Nat)) (v : Nat)
    (hnd : ∀ s ∈ sets, s.Nodup) : sets.flatten.count v ≤ sets.length := by
  induction sets with
  | nil => simp
  | cons s ss ih =>
    simp only [List.flatten_cons, List.count_append, List.length_cons]
    have h1 : s.count v ≤ 1 :=
      List.nodup_iff_count_le_one.mp (hnd s (List.mem_cons_self s ss)) v
    have h2 := ih (fun s' hs' => hnd s' (List.mem_cons_of_mem _ hs'))
    omega

/-- Over duplicate-free candidate sets, the occurrence count reaches the
number of sets exactly when the value lies in every set: the
heart of why occurrence-count matching is plain intersection. -/
theorem count_flatten_eq_length_iff (sets : List (List Nat)) (v : Nat)
    (hnd : ∀ s ∈ sets, s.Nodup) :
    sets.flatten.count v = sets.length ↔ ∀ s ∈ sets, v ∈ s := by
  induction sets with
  | nil => simp
  | cons s ss ih =>
    simp only [List.flatten_cons, List.count_append, List.length_cons]
    have h1 : s.count v ≤ 1 :=
      List.nodup_iff_count_le_one.mp (hnd s (List.mem_cons_self s ss)) v
    have h2 := count_flatten_le ss v (fun s' hs' => hnd s' (List.mem_cons_of_mem _ hs'))
    have ih' := ih (fun s' hs' => hnd s' (List.mem_cons_of_mem _ hs'))
    constructor
    · intro hsum
      have hc1 : s.count v = 1 := by omega
      have hc2 : ss.flatten.count v = ss.length := by omega
      intro s' hs'
      rcases List.mem_cons.mp hs' with hm | hm
      · subst hm
        have : 0 < s'.count v := by omega
        exact List.count_pos_iff.mp this
      · exact (ih'.mp hc2) s' hm
    · intro hall
      have hc1 : s.count v = 1 := by
        have : 0 < s.count v := List.count_pos_iff.mpr (hall s (List.mem_cons_self s ss))
        omega
      have hc2 : ss.flatten.count v = ss.length :=
        ih'.mpr (fun s' hs' => hall s' (List.mem_cons_of_mem _ hs'))
      omega

/-- The unique-and-count filter of `np.unique` over duplicate-free,
bounded candidate sets produces exactly the ascending list of positions
lying in every set. -/
theorem uniqueCount_eq_inter (sets : List (List Nat)) (records : Nat)
    (hne : sets ≠ [])
    (hnd : ∀ s ∈ sets, s.Nodup)
    (hbnd : ∀ s ∈ sets, ∀ p ∈ s, p < records) :
    (sets.flatten.toFinset.sort (· ≤ ·)).filter
        (fun v => sets.flatten.count v = sets.length) =
      (List.range records).filter (fun p => decide (∀ s ∈ sets, p ∈ s)) := by
  obtain ⟨s0, ss, rfl⟩ : ∃ s0 ss, sets = s0 :: ss := by
    cases sets with
    | nil => exact absurd rfl hne
    | cons a b => exact ⟨a, b, rfl⟩
  have hs1 : List.Sorted (· ≤ ·)
      (((s0 :: ss).flatten.toFinset.sort (· ≤ ·)).filter
        (fun v => (s0 :: ss).flatten.count v = (s0 :: ss).length)) :=
    List.Pairwise.filter _ (Finset.sort_sorted _ _)
  have hs2 : List.Sorted (· ≤ ·)
      ((List.range records).filter (fun p => decide (∀ s ∈ s0 :: ss, p ∈ s))) :=
    List.Pairwise.filter _ ((List.pairwise_lt_range records).imp le_of_lt)
  refine List.eq_of_perm_of_sorted ?_ hs1 hs2
  apply List.perm_of_nodup_nodup_toFinset_eq
  · exact List.Nodup.filter _ (Finset.sort_nodup _ _)
  · exact List.Nodup.filter _ (List.nodup_range _)
  · ext v
    simp only [List.mem_toFinset, List.mem_filter, Finset.mem_sort, List.mem_range,
      decide_eq_true_eq]
    constructor
    · rintro ⟨-, hc⟩
      have hall := (count_flatten_eq_length_iff _ v hnd).mp (by exact_mod_cast hc)
      have hvlt : v < records :=
        hbnd s0 (List.mem_cons_self s0 ss) v (hall s0 (List.mem_cons_self s0 ss))
      exact ⟨hvlt, hall⟩
    · rintro ⟨hvlt, hall⟩
      have hc := (count_flatten_eq_length_iff _ v hnd).mpr hall
      have hv : v ∈ (s0 :: ss).flatten := by
        rw [List.mem_flatten]
        exact ⟨s0, List.mem_cons_self s0 ss, hall s0 (List.mem_cons_self s0 ss)⟩
      exact ⟨hv, by exact_mod_cast hc⟩

/-- With a slot value of -1 or above, one identifier slot contributes its
candidate set without error. -/
theorem slotSet_ok (h : Handle) (l : List (Option Int)) (sv : Int) (hs : -1 ≤ sv) :
    h.slotSet l sv = .ok (if sv = -1 then List.range h.records else npWhereEq l sv) := by
  unfold Handle.slotSet
  by_cases h1 : sv = -1
  · simp [h1]
  · have h0 : 0 ≤ sv := by omega
    simp [h1, h0]

/-- With well-behaved slot values, `fetch` builds exactly the concatenation
of the supplied criteria's candidate sets, and `match_count` is their
number. -/
theorem fetchConcat_ok (h : Handle) (d : Option Int) (s1 s2 s3 s4 : Int) (ld : Option Int)
    (hs1 : -1 ≤ s1) (hs2 : -1 ≤ s2) (hs3 : -1 ≤ s3) (hs4 : -1 ≤ s4) :
    h.fetchConcat d (some (s1, s2, s3, s4)) ld =
      .ok (some ((h.critSets d (some (s1, s2, s3, s4)) ld).flatten),
        (h.critSets d (some (s1, s2, s3, s4)) ld).length) := by
  unfold Handle.fetchConcat Handle.critSets
  cases d with
  | none =>
    cases ld with
    | none =>
      dsimp only
      rw [slotSet_ok h _ s1 hs1, slotSet_ok h _ s2 hs2, slotSet_ok h _ s3 hs3,
        slotSet_ok h _ s4 hs4]
      simp [Bind.bind, Except.bind, pure, Except.pure, List.append_assoc]
    | some ldv =>
      dsimp only
      rw [slotSet_ok h _ s1 hs1, slotSet_ok h _ s2 hs2, slotSet_ok h _ s3 hs3,
        slotSet_ok h _ s4 hs4]
      simp [Bind.bind, Except.bind, pure, Except.pure, List.append_assoc]
  | some dv =>
    cases ld with
    | none =>
      dsimp only
      rw [slotSet_ok h _ s1 hs1, slotSet_ok h _ s2 hs2, slotSet_ok h _ s3 hs3,
        slotSet_ok h _ s4 hs4]
      simp [Bind.bind, Except.bind, pure, Except.pure, List.append_assoc]
    | some ldv =>
      dsimp only
      rw [slotSet_ok h _ s1 hs1, slotSet_ok h _ s2 hs2, slotSet_ok h _ s3 hs3,
        slotSet_ok h _ s4 hs4]
      simp [Bind.bind, Except.bind, pure, Except.pure, List.append_assoc]

/-- The position filter of `fetch` in terms of the candidate sets. -/
theorem fetchPositions_eq (h : Handle) (d : Option Int) (s1 s2 s3 s4 : Int) (ld : Option Int)
    (hs1 : -1 ≤ s1) (hs2 : -1 ≤ s2) (hs3 : -1 ≤ s3) (hs4 : -1 ≤ s4) :
    h.fetchPositions d (some (s1, s2, s3, s4)) ld =
      .ok (((h.critSets d (some (s1, s2, s3, s4)) ld).flatten.toFinset.sort (· ≤ ·)).filter
        (fun v => (h.critSets d (some (s1, s2, s3, s4)) ld).flatten.count v =
          (h.critSets d (some (s1, s2, s3, s4)) ld).length)) := by
  unfold Handle.fetchPositions
  rw [fetchConcat_ok h d s1 s2 s3 s4 ld hs1 hs2 hs3 hs4]
  simp [Bind.bind, Except.bind, pure, Except.pure]

/-- Every candidate set contributed by the criteria is duplicate-free and
bounded by the record count. -/
theorem critSets_props (h : Handle) (d : Option Int) (s1 s2 s3 s4 : Int) (ld : Option Int)
    (hl1 : h.idx.date.length = h.records) (hl2 : h.idx.id1.length = h.records)
    (hl3 : h.idx.id2.length = h.records) (hl4 : h.idx.id3.length = h.records)
    (hl5 : h.idx.id4.length = h.records) (hl6 : h.idx.lead.length = h.records) :
    ∀ s ∈ h.critSets d (some (s1, s2, s3, s4)) ld,
      s.Nodup ∧ ∀ p ∈ s, p < h.records := by
  have hslot : ∀ (l : List (Option Int)) (sv : Int), l.length = h.records →
      (if sv = -1 then List.range h.records else npWhereEq l sv).Nodup ∧
      ∀ p ∈ (if sv = -1 then List.range h.records else npWhereEq l sv), p < h.records := by
    intro l sv hl
    split
    · exact ⟨List.nodup_range _, fun p hp => List.mem_range.mp hp⟩
    · refine ⟨npWhereEq_nodup l sv, fun p hp => ?_⟩
      have := (npWhereEq_mem l sv p).mp hp
      omega
  have hwh : ∀ (l : List (Option Int)) (v : Int), l.length = h.records →
      (npWhereEq l v).Nodup ∧ ∀ p ∈ npWhereEq l v, p < h.records := by
    intro l v hl
    refine ⟨npWhereEq_nodup l v, fun p hp => ?_⟩
    have := (npWhereEq_mem l v p).mp hp
    omega
  intro s hs
  unfold Handle.critSets at hs
  cases d with
  | none =>
    cases ld with
    | none =>
      simp only [List.nil_append, List.append_nil, List.mem_cons, List.not_mem_nil,
        or_false] at hs
      rcases hs with rfl | rfl | rfl | rfl
      · exact hslot _ s1 hl2
      · exact hslot _ s2 hl3
      · exact hslot _ s3 hl4
      · exact hslot _ s4 hl5
    | some ldv =>
      simp only [List.nil_append, List.mem_append, List.mem_cons, List.not_mem_nil,
        or_false, List.mem_singleton] at hs
      rcases hs with (rfl | rfl | rfl | rfl) | rfl
      · exact hslot _ s1 hl2
      · exact hslot _ s2 hl3
      · exact hslot _ s3 hl4
      · exact hslot _ s4 hl5
      · exact hwh _ ldv hl6
  | some dv =>
    cases ld with
    | none =>
      simp only [List.append_nil, List.mem_append, List.mem_cons, List.not_mem_nil,
        or_false, List.mem_singleton] at hs
      rcases hs with rfl | (rfl | rfl | rfl | rfl)
      · exact hwh _ dv hl1
      · exact hslot _ s1 hl2
      · exact hslot _ s2 hl3
      · exact hslot _ s3 hl4
      · exact hslot _ s4 hl5
    | some ldv =>
      simp only [List.mem_append, List.mem_cons, List.not_mem_nil, or_false,
        List.mem_singleton] at hs
      rcases hs with (rfl | (rfl | rfl | rfl | rfl)) | rfl
      · exact hwh _ dv hl1
      · exact hslot _ s1 hl2
      · exact hslot _ s2 hl3
      · exact hslot _ s3 hl4
      · exact hslot _ s4 hl5
      · exact hwh _ ldv hl6

/-- C1 (amended): whenever an identifier criterion is supplied (with each
slot a wildcard -1 or a concrete value), possibly combined with date and
lead criteria, the occurrence-count matching of `fetch` returns exactly
the plain set intersection of the supplied criteria's candidate sets, in
ascending order: every candidate set is duplicate-free, so a position
reaches `match_count` occurrences in the concatenation only by lying in
every set, and wildcard slots can never produce a partial match. -/
theorem fetch_matches_intersection (h : Handle) (d : Option Int) (s1 s2 s3 s4 : Int)
    (ld : Option Int)
    (hl1 : h.idx.date.length = h.records) (hl2 : h.idx.id1.length = h.records)
    (hl3 : h.idx.id2.length = h.records) (hl4 : h.idx.id3.length = h.records)
    (hl5 : h.idx.id4.length = h.records) (hl6 : h.idx.lead.length = h.records)
    (hs1 : -1 ≤ s1) (hs2 : -1 ≤ s2) (hs3 : -1 ≤ s3) (hs4 : -1 ≤ s4) :
    h.fetchPositions d (some (s1, s2, s3, s4)) ld =
      .ok (h.interPositions d (some (s1, s2, s3, s4)) ld) := by
  rw [fetchPositions_eq h d s1 s2 s3 s4 ld hs1 hs2 hs3 hs4]
  congr 1
  have hprops := critSets_props h d s1 s2 s3 s4 ld hl1 hl2 hl3 hl4 hl5 hl6
  have hne : h.critSets d (some (s1, s2, s3, s4)) ld ≠ [] := by
    unfold Handle.critSets
    cases d <;> cases ld <;> simp
  rw [uniqueCount_eq_inter _ h.records hne (fun s hs => (hprops s hs).1)
    (fun s hs => (hprops s hs).2)]
  rfl

/-- C1 witness: a concrete three-record index queried with a date plus an
all-wildcard identifier. -/
theorem fetch_matches_intersection_witness :
    hFetch.fetchPositions (some 5) (some (-1, -1, -1, -1)) none =
      .ok (hFetch.interPositions (some 5) (some (-1, -1, -1, -1)) none) :=
  fetch_matches_intersection hFetch (some 5) (-1) (-1) (-1) (-1) none (by decide) (by decide)
    (by decide) (by decide) (by decide) (by decide) (by decide) (by decide) (by decide)
    (by decide)

/-- C1 counterexample to the claim as stated: there is no index content and
no combination of criteria mixing a wildcard identifier slot with other
criteria for which the occurrence-count matching differs from the plain
set intersection of the supplied criteria's candidate sets. -/
theorem fetch_wildcard_no_partial_match :
    ¬ ∃ (h : Handle) (d : Option Int) (s1 s2 s3 s4 : Int) (ld : Option Int),
      (h.idx.date.length = h.records ∧ h.idx.id1.length = h.records ∧
       h.idx.id2.length = h.records ∧ h.idx.id3.length = h.records ∧
       h.idx.id4.length = h.records ∧ h.idx.lead.length = h.records) ∧
      (-1 ≤ s1 ∧ -1 ≤ s2 ∧ -1 ≤ s3 ∧ -1 ≤ s4) ∧
      (s1 = -1 ∨ s2 = -1 ∨ s3 = -1 ∨ s4 = -1) ∧
      (d.isSome ∨ ld.isSome) ∧
      h.fetchPositions d (some (s1, s2, s3, s4)) ld ≠
        .ok (h.interPositions d (some (s1, s2, s3, s4)) ld) := by
  rintro ⟨h, d, s1, s2, s3, s4, ld, ⟨hl1, hl2, hl3, hl4, hl5, hl6⟩,
    ⟨hs1, hs2, hs3, hs4⟩, -, -, hne⟩
  exact hne (fetch_matches_intersection h d s1 s2 s3 s4 ld hl1 hl2 hl3 hl4 hl5 hl6
    hs1 hs2 hs3 hs4)

end Tdlpack
